import Mathlib

set_option maxHeartbeats 1000000
set_option maxRecDepth 8000

/-!
Shallow embedding of `src/unescape.rs` (HTML entity decoding).

Bytes are modelled as `Nat` (values of Rust `u8`), byte strings as `List Nat`.
The `Peekable` byte iterator is modelled by explicit list passing: `peek`
corresponds to `List.head?`, `next` to destructuring.  Code paths that panic in
Rust (`expect(PEEK_MATCH_ERROR)`, the explicit `panic!` on a `#` mismatch, and
the final `String::from_utf8(buffer).unwrap()`) are modelled as `Option` with
`none` playing the role of the panic.
-/

/-- `Context` from `src/unescape.rs`: either `General` or `Attribute`. -/
inductive Context where
  | General
  | Attribute
deriving DecidableEq

/-- Byte class accepted by `consume_decimal` (`b'0'..=b'9'`). -/
def isDecDigit (c : Nat) : Bool := decide (48 ≤ c ∧ c ≤ 57)

/-- Byte class accepted by `consume_hexadecimal`
(`b'0'..=b'9' | b'a'..=b'f' | b'A'..=b'F'`). -/
def isHexDigit (c : Nat) : Bool :=
  isDecDigit c || decide (97 ≤ c ∧ c ≤ 102) || decide (65 ≤ c ∧ c ≤ 70)

/-- Byte class accepted by `consume_alphanumeric`
(`b'0'..=b'9' | b'a'..=b'z' | b'A'..=b'Z'`). -/
def isAlphanumeric (c : Nat) : Bool :=
  isDecDigit c || decide (97 ≤ c ∧ c ≤ 122) || decide (65 ≤ c ∧ c ≤ 90)

/-- The `consumer!` macro from `src/unescape.rs`: consume the maximal run of
bytes accepted by `accept`, returning the consumed buffer and the remaining
input (the iterator state). -/
def consumeWhile (accept : Nat → Bool) : List Nat → List Nat × List Nat
  | [] => ([], [])
  | c :: rest =>
    if accept c then
      (c :: (consumeWhile accept rest).1, (consumeWhile accept rest).2)
    else
      ([], c :: rest)

/-- `consume_decimal` from `src/unescape.rs`. -/
def consume_decimal (l : List Nat) : List Nat × List Nat := consumeWhile isDecDigit l

/-- `consume_hexadecimal` from `src/unescape.rs`. -/
def consume_hexadecimal (l : List Nat) : List Nat × List Nat := consumeWhile isHexDigit l

/-- `consume_alphanumeric` from `src/unescape.rs`. -/
def consume_alphanumeric (l : List Nat) : List Nat × List Nat := consumeWhile isAlphanumeric l

/-- State of the standard UTF-8 validation automaton: `start` between encoded
characters, otherwise the kind of continuation bytes still expected (`tail2e0`,
`tail2ed`, `tail3f0`, `tail3f4` carry the restricted first-continuation ranges
after lead bytes E0, ED, F0, F4, which exclude overlong forms, surrogates and
values above U+10FFFF). -/
inductive Utf8State where
  | start
  | tail1
  | tail2
  | tail2e0
  | tail2ed
  | tail3
  | tail3f0
  | tail3f4
deriving DecidableEq

/-- One step of the UTF-8 validation automaton (RFC 3629 well-formed byte
sequences, exactly what Rust's `String::from_utf8` accepts). -/
def utf8Next (s : Utf8State) (b : Nat) : Option Utf8State :=
  match s with
  | .start =>
    if b ≤ 127 then some .start
    else if 194 ≤ b ∧ b ≤ 223 then some .tail1
    else if b = 224 then some .tail2e0
    else if (225 ≤ b ∧ b ≤ 236) ∨ (238 ≤ b ∧ b ≤ 239) then some .tail2
    else if b = 237 then some .tail2ed
    else if b = 240 then some .tail3f0
    else if 241 ≤ b ∧ b ≤ 243 then some .tail3
    else if b = 244 then some .tail3f4
    else none
  | .tail1 => if 128 ≤ b ∧ b ≤ 191 then some .start else none
  | .tail2 => if 128 ≤ b ∧ b ≤ 191 then some .tail1 else none
  | .tail2e0 => if 160 ≤ b ∧ b ≤ 191 then some .tail1 else none
  | .tail2ed => if 128 ≤ b ∧ b ≤ 159 then some .tail1 else none
  | .tail3 => if 128 ≤ b ∧ b ≤ 191 then some .tail2 else none
  | .tail3f0 => if 144 ≤ b ∧ b ≤ 191 then some .tail2 else none
  | .tail3f4 => if 128 ≤ b ∧ b ≤ 143 then some .tail2 else none

/-- Run of the UTF-8 validation automaton over a byte list; accepts when the
whole list is consumed in the `start` state. -/
def utf8Run : Utf8State → List Nat → Bool
  | s, [] => decide (s = Utf8State.start)
  | s, b :: l =>
    match utf8Next s b with
    | some s2 => utf8Run s2 l
    | none => false

/-- UTF-8 validity of a byte sequence, exactly the check performed by Rust's
`String::from_utf8` (no overlong forms, no surrogates, max U+10FFFF). -/
def utf8Valid (l : List Nat) : Bool := utf8Run Utf8State.start l

/-- UTF-8 encoding of a Unicode scalar value, as produced by Rust's
`char::to_string` (used by `char_to_vecu8` / `u32_to_vecu8`). -/
def utf8EncodeChar (c : Nat) : List Nat :=
  if c < 128 then [c]
  else if c < 2048 then [192 + c / 64, 128 + c % 64]
  else if c < 65536 then [224 + c / 4096, 128 + (c / 64) % 64, 128 + c % 64]
  else [240 + c / 262144, 128 + (c / 4096) % 64, 128 + (c / 64) % 64, 128 + c % 64]

/-- `REPLACEMENT_CHAR` from `src/unescape.rs`: U+FFFD as a code point. -/
def REPLACEMENT_CHAR : Nat := 0xFFFD

/-- `is_outside_range` from `src/unescape.rs`. -/
def is_outside_range (c : Nat) : Bool := decide (0x10FFFF < c)

/-- `is_surrogate` from `src/unescape.rs`. -/
def is_surrogate (c : Nat) : Bool := decide (0xD800 ≤ c ∧ c ≤ 0xDFFF)

/-- Rust `char::from_u32`: `some` exactly on Unicode scalar values. -/
def char_from_u32 (c : Nat) : Option Nat :=
  if 0x10FFFF < c ∨ (0xD800 ≤ c ∧ c ≤ 0xDFFF) then none else some c

/-- `char_to_vecu8` from `src/unescape.rs` (`Some(c.to_string().into())`). -/
def char_to_vecu8 (c : Nat) : Option (List Nat) := some (utf8EncodeChar c)

/-- `u32_to_vecu8` from `src/unescape.rs`
(`Some(char::from_u32(c).unwrap().to_string().into())`; the `unwrap` panic is
modelled by `none`). -/
def u32_to_vecu8 (c : Nat) : Option (List Nat) :=
  (char_from_u32 c).map utf8EncodeChar

/-- Numeric value of an ASCII digit byte (decimal or hexadecimal). -/
def digitVal (c : Nat) : Nat :=
  if 48 ≤ c ∧ c ≤ 57 then c - 48
  else if 97 ≤ c ∧ c ≤ 102 then c - 87
  else if 65 ≤ c ∧ c ≤ 70 then c - 55
  else 0

/-- Arbitrary-precision value of a digit run in the given radix. -/
def digitsVal (radix : Nat) (ds : List Nat) : Nat :=
  ds.foldl (fun a c => a * radix + digitVal c) 0

/-- Outcome of Rust `u32::from_str_radix` on a (possibly empty) run of valid
digits: `ok` when the value fits in `u32`, `posOverflow` when it exceeds
`u32::MAX`, `empty` on the empty string. -/
inductive ParseResult where
  | ok (n : Nat)
  | posOverflow
  | empty
deriving DecidableEq

/-- Rust `u32::from_str_radix` restricted to runs of valid digits (the only
strings the code passes to it). -/
def from_str_radix (radix : Nat) (ds : List Nat) : ParseResult :=
  if ds = [] then ParseResult.empty
  else if 4294967295 < digitsVal radix ds then ParseResult.posOverflow
  else ParseResult.ok (digitsVal radix ds)

/-- `correct_numeric_entity` from `src/unescape.rs`: the WHATWG
numeric-character-reference-end-state correction. -/
def correct_numeric_entity (number : Nat) : Option (List Nat) :=
  if number = 0 then char_to_vecu8 REPLACEMENT_CHAR
  else if is_outside_range number then char_to_vecu8 REPLACEMENT_CHAR
  else if is_surrogate number then char_to_vecu8 REPLACEMENT_CHAR
  else if number = 0x80 then u32_to_vecu8 0x20AC
  else if number = 0x82 then u32_to_vecu8 0x201A
  else if number = 0x83 then u32_to_vecu8 0x0192
  else if number = 0x84 then u32_to_vecu8 0x201E
  else if number = 0x85 then u32_to_vecu8 0x2026
  else if number = 0x86 then u32_to_vecu8 0x2020
  else if number = 0x87 then u32_to_vecu8 0x2021
  else if number = 0x88 then u32_to_vecu8 0x02C6
  else if number = 0x89 then u32_to_vecu8 0x2030
  else if number = 0x8A then u32_to_vecu8 0x0160
  else if number = 0x8B then u32_to_vecu8 0x2039
  else if number = 0x8C then u32_to_vecu8 0x0152
  else if number = 0x8E then u32_to_vecu8 0x017D
  else if number = 0x91 then u32_to_vecu8 0x2018
  else if number = 0x92 then u32_to_vecu8 0x2019
  else if number = 0x93 then u32_to_vecu8 0x201C
  else if number = 0x94 then u32_to_vecu8 0x201D
  else if number = 0x95 then u32_to_vecu8 0x2022
  else if number = 0x96 then u32_to_vecu8 0x2013
  else if number = 0x97 then u32_to_vecu8 0x2014
  else if number = 0x98 then u32_to_vecu8 0x02DC
  else if number = 0x99 then u32_to_vecu8 0x2122
  else if number = 0x9A then u32_to_vecu8 0x0161
  else if number = 0x9B then u32_to_vecu8 0x203A
  else if number = 0x9C then u32_to_vecu8 0x0153
  else if number = 0x9E then u32_to_vecu8 0x017E
  else if number = 0x9F then u32_to_vecu8 0x0178
  else
    match char_from_u32 number with
    | some c => char_to_vecu8 c
    | none => none

/-- The `match number { ... }` tail of `match_numeric_entity`: on a successful
parse use the corrected expansion (falling through to `best` when the
correction yields `None`), on positive overflow emit the replacement
character, on an empty digit run fall through to `best`. -/
def numeric_result (number : ParseResult) (best : List Nat) (rest : List Nat) :
    Option (List Nat × List Nat) :=
  match number with
  | ParseResult.ok n =>
    match correct_numeric_entity n with
    | some expansion => some (expansion, rest)
    | none => some (best, rest)
  | ParseResult.posOverflow => some (utf8EncodeChar REPLACEMENT_CHAR, rest)
  | ParseResult.empty => some (best, rest)

/-- The trailing-semicolon step of `match_numeric_entity`: a `;` after the
digit run is consumed and appended to the best-available literal fallback. -/
def numeric_finish (number : ParseResult) (best : List Nat) (rest : List Nat) :
    Option (List Nat × List Nat) :=
  if rest.head? = some 59 then numeric_result number (best ++ [59]) rest.tail
  else numeric_result number best rest

/-- `match_numeric_entity` from `src/unescape.rs`.  The input list is the
iterator positioned at the `#`; `none` models the `PEEK_MATCH_ERROR`
panics at function entry. -/
def match_numeric_entity (l : List Nat) : Option (List Nat × List Nat) :=
  match l with
  | [] => none
  | c :: rest =>
    if c ≠ 35 then none
    else
      match rest with
      | [] => some ([38, 35], [])
      | c1 :: tail =>
        if c1 = 120 ∨ c1 = 88 then
          numeric_finish (from_str_radix 16 (consume_hexadecimal tail).1)
            ([38, 35, c1] ++ (consume_hexadecimal tail).1)
            (consume_hexadecimal tail).2
        else
          numeric_finish (from_str_radix 10 (consume_decimal rest).1)
            ([38, 35] ++ (consume_decimal rest).1)
            (consume_decimal rest).2

/-- Modelled from the spec: the `ENTITIES` name→expansion map is generated by
`build.rs` and included via `include!(concat!(env!("OUT_DIR"), "/entities.rs"))`,
so the table itself is not part of `src/`.  Per the spec it is an immutable
mapping from named-reference byte sequences (each beginning with `&`, many
ending with `;`, some without) to their pre-encoded UTF-8 expansion bytes, with
unique keys, some keys strict prefixes of others.  The entries here are the
ones the spec and the source comments name: `&amp(;)`, `&AMP(;)`, `&lt(;)`,
`&gt(;)`, `&times(;)`, `&timesb;`, `&timesbar;`, `&timesd;`. -/
def ENTITIES : List (List Nat × List Nat) :=
  [ ([38, 97, 109, 112, 59], [38]),
    ([38, 97, 109, 112], [38]),
    ([38, 65, 77, 80, 59], [38]),
    ([38, 65, 77, 80], [38]),
    ([38, 108, 116, 59], [60]),
    ([38, 108, 116], [60]),
    ([38, 103, 116, 59], [62]),
    ([38, 103, 116], [62]),
    ([38, 116, 105, 109, 101, 115, 59], [195, 151]),
    ([38, 116, 105, 109, 101, 115], [195, 151]),
    ([38, 116, 105, 109, 101, 115, 98, 59], [226, 138, 160]),
    ([38, 116, 105, 109, 101, 115, 98, 97, 114, 59], [226, 168, 177]),
    ([38, 116, 105, 109, 101, 115, 100, 59], [226, 168, 176]) ]

/-- Modelled from the spec: the minimum key length over all `ENTITIES` entries
(supplied by the generated table alongside the map). -/
def ENTITY_MIN_LENGTH : Nat := 3

/-- Modelled from the spec: the maximum key length over all `ENTITIES` entries
(supplied by the generated table alongside the map). -/
def ENTITY_MAX_LENGTH : Nat := 10

/-- `ENTITIES.get`: exact lookup of a key in the entity table. -/
def entities_get (key : List Nat) : Option (List Nat) :=
  (ENTITIES.find? (fun p => p.1 == key)).map (fun p => p.2)

/-- The `for check_len in (ENTITY_MIN_LENGTH..=max_len).rev()` loop of
`match_entity` in `General` context: probe prefixes of `candidate` from
length `n` down to `ENTITY_MIN_LENGTH`, returning the first table hit together
with its length. -/
def find_longest (candidate : List Nat) : Nat → Option (List Nat × Nat)
  | 0 => none
  | n + 1 =>
    if n + 1 < ENTITY_MIN_LENGTH then none
    else
      match entities_get (candidate.take (n + 1)) with
      | some expansion => some (expansion, n + 1)
      | none => find_longest candidate n

/-- The candidate-resolution tail of `match_entity` (everything after the
terminator handling): the minimum-length check, then exact matching in
`Attribute` context or longest-prefix matching in `General` context, falling
back to the literal candidate. -/
def named_match (context : Context) (candidate : List Nat) : List Nat :=
  if candidate.length < ENTITY_MIN_LENGTH then candidate
  else
    match context with
    | Context.Attribute =>
      match entities_get candidate with
      | some expansion => expansion
      | none => candidate
    | Context.General =>
      match find_longest candidate (min candidate.length ENTITY_MAX_LENGTH) with
      | some (expansion, k) => expansion ++ candidate.drop k
      | none => candidate

/-- `match_entity` from `src/unescape.rs`.  The input list is the iterator
positioned just after the `&`; returns the produced expansion and the
remaining input.  `none` models the `PEEK_MATCH_ERROR` panics. -/
def match_entity (l : List Nat) (context : Context) : Option (List Nat × List Nat) :=
  if l.head? = some 35 then match_numeric_entity l
  else
    if (consume_alphanumeric l).2.head? = some 59 then
      some (named_match context ((38 :: (consume_alphanumeric l).1) ++ [59]),
        (consume_alphanumeric l).2.tail)
    else if (consume_alphanumeric l).2.head? = some 61 ∧ context = Context.Attribute then
      some (38 :: (consume_alphanumeric l).1, (consume_alphanumeric l).2)
    else
      some (named_match context (38 :: (consume_alphanumeric l).1), (consume_alphanumeric l).2)

/-- The `while let Some(c) = iter.next()` loop of `unescape_in`, with explicit
fuel to keep the definition structurally recursive.  `unescape_in` supplies
`fuel = input length`, which always suffices because `match_entity` never
grows the remaining input. -/
def unescape_loop (context : Context) : Nat → List Nat → Option (List Nat)
  | _, [] => some []
  | 0, _ :: _ => none
  | fuel + 1, c :: rest =>
    if c = 38 then
      match match_entity rest context with
      | some (expansion, rest2) =>
        (unescape_loop context fuel rest2).map (fun out => expansion ++ out)
      | none => none
    else
      (unescape_loop context fuel rest).map (fun out => c :: out)

/-- `unescape_in` from `src/unescape.rs`.  The final
`String::from_utf8(buffer).unwrap()` is modelled by the `utf8Valid` check,
with `none` playing the role of the panic on invalid UTF-8. -/
def unescape_in (escaped : List Nat) (context : Context) : Option (List Nat) :=
  match unescape_loop context escaped.length escaped with
  | some buffer => if utf8Valid buffer then some buffer else none
  | none => none

/-- `unescape` from `src/unescape.rs`. -/
def unescape (escaped : List Nat) : Option (List Nat) :=
  unescape_in escaped Context.General

/-- `unescape_attribute` from `src/unescape.rs`. -/
def unescape_attribute (escaped : List Nat) : Option (List Nat) :=
  unescape_in escaped Context.Attribute

/-! ### Lemmas about `consumeWhile` -/

theorem consumeWhile_fst_append_snd (p : Nat → Bool) (l : List Nat) :
    (consumeWhile p l).1 ++ (consumeWhile p l).2 = l := by
  induction l with
  | nil => rfl
  | cons c rest ih =>
    by_cases h : p c
    · simp [consumeWhile, h, ih]
    · simp [consumeWhile, h]

theorem consumeWhile_fst_all (p : Nat → Bool) (l : List Nat) :
    ∀ c ∈ (consumeWhile p l).1, p c = true := by
  induction l with
  | nil => simp [consumeWhile]
  | cons c rest ih =>
    by_cases h : p c
    · simp only [consumeWhile, h, if_true]
      intro d hd
      rcases List.mem_cons.mp hd with h1 | h1
      · exact h1 ▸ h
      · exact ih d h1
    · simp [consumeWhile, h]

theorem consumeWhile_snd_head (p : Nat → Bool) (l : List Nat) :
    ∀ r, (consumeWhile p l).2.head? = some r → p r = false := by
  induction l with
  | nil => simp [consumeWhile]
  | cons c rest ih =>
    by_cases h : p c
    · simpa [consumeWhile, h] using ih
    · simp only [consumeWhile, h, if_false, List.head?]
      intro r hr
      cases hr
      simpa using h

theorem consumeWhile_snd_length (p : Nat → Bool) (l : List Nat) :
    (consumeWhile p l).2.length ≤ l.length := by
  induction l with
  | nil => simp [consumeWhile]
  | cons c rest ih =>
    by_cases h : p c
    · simp only [consumeWhile, h, if_true]
      exact Nat.le_succ_of_le ih
    · simp [consumeWhile, h]

theorem consumeWhile_split (p : Nat → Bool) (ds rest : List Nat)
    (h1 : ∀ d ∈ ds, p d = true)
    (h2 : ∀ r, rest.head? = some r → p r = false) :
    consumeWhile p (ds ++ rest) = (ds, rest) := by
  induction ds with
  | nil =>
    cases rest with
    | nil => rfl
    | cons r t =>
      have := h2 r (by simp)
      simp [consumeWhile, this]
  | cons d ds ih =>
    have hd : p d = true := h1 d (by simp)
    have ihs := ih (fun x hx => h1 x (List.mem_cons_of_mem d hx))
    simp [consumeWhile, hd, ihs]

/-! ### Lemmas about UTF-8 validity -/

theorem utf8Run_nil (s : Utf8State) : utf8Run s [] = decide (s = Utf8State.start) := by
  rw [utf8Run]

theorem utf8Run_cons_some (s s2 : Utf8State) (b : Nat) (l : List Nat)
    (h : utf8Next s b = some s2) : utf8Run s (b :: l) = utf8Run s2 l := by
  rw [utf8Run, h]

theorem utf8Run_cons_none (s : Utf8State) (b : Nat) (l : List Nat)
    (h : utf8Next s b = none) : utf8Run s (b :: l) = false := by
  rw [utf8Run, h]

theorem utf8Next_ascii (c : Nat) (h : c ≤ 127) :
    utf8Next Utf8State.start c = some Utf8State.start := by
  simp [utf8Next, h]

theorem utf8Valid_cons_ascii (c : Nat) (l : List Nat) (h : c ≤ 127) :
    utf8Valid (c :: l) = utf8Valid l :=
  utf8Run_cons_some _ _ c l (utf8Next_ascii c h)

theorem utf8Valid_ascii (l : List Nat) (h : ∀ c ∈ l, c ≤ 127) :
    utf8Valid l = true := by
  induction l with
  | nil => rfl
  | cons c rest ih =>
    rw [utf8Valid_cons_ascii c rest (h c (by simp))]
    exact ih fun x hx => h x (List.mem_cons_of_mem c hx)

/-- A byte that continues a partially read character is never ASCII; in
particular it is never `&`. -/
theorem utf8Next_ascii_start (s s2 : Utf8State) (c : Nat) (hc : c ≤ 127)
    (h : utf8Next s c = some s2) : s = Utf8State.start ∧ s2 = Utf8State.start := by
  cases s
  · rw [utf8Next_ascii c hc] at h
    exact ⟨rfl, (Option.some_inj.mp h).symm⟩
  all_goals · rw [utf8Next, if_neg (by omega)] at h; exact absurd h (by simp)

theorem utf8Run_append (a : List Nat) :
    ∀ s, utf8Run s a = true → ∀ b, utf8Valid b = true →
      utf8Run s (a ++ b) = true := by
  induction a with
  | nil =>
    intro s hs b hb
    rw [utf8Run_nil] at hs
    simp only [decide_eq_true_eq] at hs
    simpa [hs]
  | cons c rest ih =>
    intro s hs b hb
    cases h : utf8Next s c with
    | none => rw [utf8Run_cons_none s c rest h] at hs; exact absurd hs (by simp)
    | some s2 =>
      rw [utf8Run_cons_some s s2 c rest h] at hs
      rw [List.cons_append, utf8Run_cons_some s s2 c _ h]
      exact ih s2 hs b hb

theorem utf8Valid_append_of (a b : List Nat)
    (ha : utf8Valid a = true) (hb : utf8Valid b = true) :
    utf8Valid (a ++ b) = true :=
  utf8Run_append a Utf8State.start ha b hb

theorem utf8EncodeChar_valid (c : Nat) (h1 : c < 0x110000)
    (h2 : ¬(0xD800 ≤ c ∧ c ≤ 0xDFFF)) :
    utf8Valid (utf8EncodeChar c) = true := by
  unfold utf8EncodeChar
  split_ifs with hc1 hc2 hc3
  · rw [utf8Valid_cons_ascii c [] (by omega)]
    rfl
  · have s1 : utf8Next Utf8State.start (192 + c / 64) = some Utf8State.tail1 := by
      rw [utf8Next, if_neg (by omega), if_pos (by omega)]
    have s2 : utf8Next Utf8State.tail1 (128 + c % 64) = some Utf8State.start := by
      rw [utf8Next, if_pos (by omega)]
    rw [utf8Valid, utf8Run_cons_some _ _ _ _ s1, utf8Run_cons_some _ _ _ _ s2]
    rfl
  · have s3 : utf8Next Utf8State.tail1 (128 + c % 64) = some Utf8State.start := by
      rw [utf8Next, if_pos (by omega)]
    by_cases hq0 : c < 4096
    · have s1 : utf8Next Utf8State.start (224 + c / 4096) = some Utf8State.tail2e0 := by
        rw [utf8Next, if_neg (by omega), if_neg (by omega), if_pos (by omega)]
      have s2 : utf8Next Utf8State.tail2e0 (128 + c / 64 % 64) = some Utf8State.tail1 := by
        rw [utf8Next, if_pos (by omega)]
      rw [utf8Valid, utf8Run_cons_some _ _ _ _ s1, utf8Run_cons_some _ _ _ _ s2,
        utf8Run_cons_some _ _ _ _ s3]
      rfl
    · by_cases hqd : 53248 ≤ c ∧ c ≤ 57343
      · have s1 : utf8Next Utf8State.start (224 + c / 4096) = some Utf8State.tail2ed := by
          rw [utf8Next]
          iterate 4 rw [if_neg (by omega)]
          rw [if_pos (by omega)]
        have s2 : utf8Next Utf8State.tail2ed (128 + c / 64 % 64) = some Utf8State.tail1 := by
          rw [utf8Next, if_pos (by omega)]
        rw [utf8Valid, utf8Run_cons_some _ _ _ _ s1, utf8Run_cons_some _ _ _ _ s2,
          utf8Run_cons_some _ _ _ _ s3]
        rfl
      · have s1 : utf8Next Utf8State.start (224 + c / 4096) = some Utf8State.tail2 := by
          rw [utf8Next]
          iterate 3 rw [if_neg (by omega)]
          rw [if_pos (by omega)]
        have s2 : utf8Next Utf8State.tail2 (128 + c / 64 % 64) = some Utf8State.tail1 := by
          rw [utf8Next, if_pos (by omega)]
        rw [utf8Valid, utf8Run_cons_some _ _ _ _ s1, utf8Run_cons_some _ _ _ _ s2,
          utf8Run_cons_some _ _ _ _ s3]
        rfl
  · have s3 : utf8Next Utf8State.tail2 (128 + c / 64 % 64) = some Utf8State.tail1 := by
      rw [utf8Next, if_pos (by omega)]
    have s4 : utf8Next Utf8State.tail1 (128 + c % 64) = some Utf8State.start := by
      rw [utf8Next, if_pos (by omega)]
    by_cases hq0 : c < 262144
    · have s1 : utf8Next Utf8State.start (240 + c / 262144) = some Utf8State.tail3f0 := by
        rw [utf8Next]
        iterate 5 rw [if_neg (by omega)]
        rw [if_pos (by omega)]
      have s2 : utf8Next Utf8State.tail3f0 (128 + c / 4096 % 64) = some Utf8State.tail2 := by
        rw [utf8Next, if_pos (by omega)]
      rw [utf8Valid, utf8Run_cons_some _ _ _ _ s1, utf8Run_cons_some _ _ _ _ s2,
        utf8Run_cons_some _ _ _ _ s3, utf8Run_cons_some _ _ _ _ s4]
      rfl
    · by_cases hq4 : 1048576 ≤ c
      · have s1 : utf8Next Utf8State.start (240 + c / 262144) = some Utf8State.tail3f4 := by
          rw [utf8Next]
          iterate 7 rw [if_neg (by omega)]
          rw [if_pos (by omega)]
        have s2 : utf8Next Utf8State.tail3f4 (128 + c / 4096 % 64) = some Utf8State.tail2 := by
          rw [utf8Next, if_pos (by omega)]
        rw [utf8Valid, utf8Run_cons_some _ _ _ _ s1, utf8Run_cons_some _ _ _ _ s2,
          utf8Run_cons_some _ _ _ _ s3, utf8Run_cons_some _ _ _ _ s4]
        rfl
      · have s1 : utf8Next Utf8State.start (240 + c / 262144) = some Utf8State.tail3 := by
          rw [utf8Next]
          iterate 6 rw [if_neg (by omega)]
          rw [if_pos (by omega)]
        have s2 : utf8Next Utf8State.tail3 (128 + c / 4096 % 64) = some Utf8State.tail2 := by
          rw [utf8Next, if_pos (by omega)]
        rw [utf8Valid, utf8Run_cons_some _ _ _ _ s1, utf8Run_cons_some _ _ _ _ s2,
          utf8Run_cons_some _ _ _ _ s3, utf8Run_cons_some _ _ _ _ s4]
        rfl

theorem consumeWhile_snd_valid (p : Nat → Bool) (l : List Nat)
    (hp : ∀ c, p c = true → c ≤ 127) (hv : utf8Valid l = true) :
    utf8Valid (consumeWhile p l).2 = true := by
  induction l with
  | nil => simpa [consumeWhile]
  | cons c rest ih =>
    by_cases h : p c
    · simp only [consumeWhile, h, if_true]
      exact ih ((utf8Valid_cons_ascii c rest (hp c h)) ▸ hv)
    · simpa [consumeWhile, h]

/-! ### Byte-class facts -/

theorem isDecDigit_le (c : Nat) (h : isDecDigit c = true) : c ≤ 127 := by
  simp only [isDecDigit, decide_eq_true_eq] at h
  omega

theorem isHexDigit_le (c : Nat) (h : isHexDigit c = true) : c ≤ 127 := by
  simp only [isHexDigit, isDecDigit, Bool.or_eq_true, decide_eq_true_eq] at h
  omega

theorem isAlphanumeric_le (c : Nat) (h : isAlphanumeric c = true) : c ≤ 127 := by
  simp only [isAlphanumeric, isDecDigit, Bool.or_eq_true, decide_eq_true_eq] at h
  omega

theorem isAlphanumeric_range (c : Nat) (h : isAlphanumeric c = true) :
    (48 ≤ c ∧ c ≤ 57) ∨ (97 ≤ c ∧ c ≤ 122) ∨ (65 ≤ c ∧ c ≤ 90) := by
  simp only [isAlphanumeric, isDecDigit, Bool.or_eq_true, decide_eq_true_eq] at h
  omega

/-! ### Facts about the entity table -/

theorem entities_get_mem (k e : List Nat) (h : entities_get k = some e) :
    (k, e) ∈ ENTITIES := by
  unfold entities_get at h
  cases hf : ENTITIES.find? (fun p => p.1 == k) with
  | none => rw [hf] at h; exact absurd h (by simp)
  | some p =>
    rw [hf] at h
    have hm := List.mem_of_find?_eq_some hf
    have hp := List.find?_some hf
    simp only [beq_iff_eq] at hp
    have h2 : p.2 = e := by simpa using h
    have hpe : p = (k, e) := by
      cases p
      simp only at hp h2
      rw [hp, h2]
    rwa [hpe] at hm

theorem entities_table_facts :
    ∀ p ∈ ENTITIES, 3 ≤ p.1.length ∧ p.1.length ≤ 10 ∧ utf8Valid p.2 = true := by
  decide

theorem entities_get_len (k e : List Nat) (h : entities_get k = some e) :
    3 ≤ k.length ∧ k.length ≤ 10 := by
  have := entities_table_facts (k, e) (entities_get_mem k e h)
  exact ⟨this.1, this.2.1⟩

theorem entities_get_valid (k e : List Nat) (h : entities_get k = some e) :
    utf8Valid e = true :=
  (entities_table_facts (k, e) (entities_get_mem k e h)).2.2

/-! ### Lemmas about `find_longest` and `named_match` -/

theorem find_longest_some (candidate : List Nat) :
    ∀ m e k, find_longest candidate m = some (e, k) →
      ENTITY_MIN_LENGTH ≤ k ∧ k ≤ m ∧ entities_get (candidate.take k) = some e ∧
        ∀ j, k < j → j ≤ m → entities_get (candidate.take j) = none := by
  intro m
  induction m with
  | zero => intro e k h; exact absurd h (by simp [find_longest])
  | succ n ih =>
    intro e k h
    rw [find_longest] at h
    split_ifs at h with hmin
    cases hg : entities_get (candidate.take (n + 1)) with
    | some expansion =>
      rw [hg] at h
      simp only [Option.some_inj, Prod.mk.injEq] at h
      obtain ⟨rfl, rfl⟩ := h
      exact ⟨by omega, Nat.le_refl _, hg, fun j h1 h2 => by omega⟩
    | none =>
      rw [hg] at h
      obtain ⟨g1, g2, g3, g4⟩ := ih e k h
      refine ⟨g1, by omega, g3, fun j hj1 hj2 => ?_⟩
      by_cases hj : j = n + 1
      · rw [hj]; exact hg
      · exact g4 j hj1 (by omega)

theorem find_longest_of (candidate e : List Nat) (k : Nat)
    (hmin : ENTITY_MIN_LENGTH ≤ k)
    (hk : entities_get (candidate.take k) = some e) :
    ∀ m, k ≤ m →
      (∀ j, k < j → j ≤ m → entities_get (candidate.take j) = none) →
      find_longest candidate m = some (e, k) := by
  intro m
  induction m with
  | zero => intro h1 _; simp only [ENTITY_MIN_LENGTH] at hmin; omega
  | succ n ih =>
    intro hkm hnone
    rw [find_longest]
    rw [if_neg (by simp only [ENTITY_MIN_LENGTH] at hmin ⊢; omega)]
    by_cases hke : k = n + 1
    · rw [← hke, hk]
    · rw [hnone (n + 1) (by omega) (Nat.le_refl _)]
      exact ih (by omega) (fun j h1 h2 => hnone j h1 (by omega))

theorem named_match_general_hit (candidate e : List Nat) (k : Nat)
    (hmin : ENTITY_MIN_LENGTH ≤ k) (hmax : k ≤ min candidate.length ENTITY_MAX_LENGTH)
    (hk : entities_get (candidate.take k) = some e)
    (hnone : ∀ j, k < j → j ≤ min candidate.length ENTITY_MAX_LENGTH →
      entities_get (candidate.take j) = none) :
    named_match Context.General candidate = e ++ candidate.drop k := by
  unfold named_match
  rw [if_neg (by simp only [ENTITY_MIN_LENGTH] at hmin ⊢; omega)]
  rw [find_longest_of candidate e k hmin hk (min candidate.length ENTITY_MAX_LENGTH)
    hmax hnone]

theorem named_match_attribute_hit (candidate e : List Nat)
    (h : entities_get candidate = some e) :
    named_match Context.Attribute candidate = e := by
  have hlen := entities_get_len candidate e h
  unfold named_match
  rw [if_neg (by simp only [ENTITY_MIN_LENGTH]; omega)]
  simp only [h]

theorem named_match_attribute_miss (candidate : List Nat)
    (h : entities_get candidate = none) :
    named_match Context.Attribute candidate = candidate := by
  unfold named_match
  split_ifs with hlen
  · rfl
  · simp only [h]

theorem named_match_exact (context : Context) (candidate e : List Nat)
    (h : entities_get candidate = some e) :
    named_match context candidate = e := by
  cases context with
  | Attribute => exact named_match_attribute_hit candidate e h
  | General =>
    have hlen := entities_get_len candidate e h
    have htake : candidate.take candidate.length = candidate := List.take_length candidate
    have := named_match_general_hit candidate e candidate.length
      (by simp only [ENTITY_MIN_LENGTH]; omega)
      (by simp only [ENTITY_MAX_LENGTH]; omega)
      (by rw [htake]; exact h)
      (fun j h1 h2 => by simp only [ENTITY_MAX_LENGTH] at h2; omega)
    rw [this, List.drop_length, List.append_nil]

theorem named_match_ascii (context : Context) (candidate : List Nat)
    (hc : ∀ c ∈ candidate, c ≤ 127) :
    utf8Valid (named_match context candidate) = true := by
  unfold named_match
  split_ifs with hlen
  · exact utf8Valid_ascii candidate hc
  cases context with
  | Attribute =>
    cases hg : entities_get candidate with
    | some e => simp only [hg]; exact entities_get_valid candidate e hg
    | none => simp only [hg]; exact utf8Valid_ascii candidate hc
  | General =>
    cases hg : find_longest candidate (min candidate.length ENTITY_MAX_LENGTH) with
    | some p =>
      obtain ⟨e, k⟩ := p
      simp only [hg]
      obtain ⟨g1, g2, g3, g4⟩ := find_longest_some candidate _ e k hg
      refine utf8Valid_append_of e (candidate.drop k)
        (entities_get_valid _ e g3) (utf8Valid_ascii _ fun c hcm => ?_)
      exact hc c (List.mem_of_mem_drop hcm)
    | none => simp only [hg]; exact utf8Valid_ascii candidate hc

/-! ### Lemmas about the numeric reference resolver -/

theorem correct_numeric_entity_bad (n : Nat)
    (h : n = 0 ∨ 0x10FFFF < n ∨ (0xD800 ≤ n ∧ n ≤ 0xDFFF)) :
    correct_numeric_entity n = some (utf8EncodeChar REPLACEMENT_CHAR) := by
  unfold correct_numeric_entity
  rcases h with h | h | h
  · rw [if_pos h]
    rfl
  · rw [if_neg (by omega),
      if_pos (by simp only [is_outside_range, decide_eq_true_eq]; omega)]
    rfl
  · rw [if_neg (by omega),
      if_neg (by simp only [is_outside_range, decide_eq_true_eq]; omega),
      if_pos (by simp only [is_surrogate, decide_eq_true_eq]; omega)]
    rfl

theorem correct_numeric_entity_catchall (n : Nat) (h1 : 0xA0 ≤ n) (h3 : n ≤ 0x10FFFF)
    (h2 : ¬(0xD800 ≤ n ∧ n ≤ 0xDFFF)) :
    correct_numeric_entity n = some (utf8EncodeChar n) := by
  unfold correct_numeric_entity
  rw [if_neg (by omega),
    if_neg (by simp only [is_outside_range, decide_eq_true_eq]; omega),
    if_neg (by simp only [is_surrogate, decide_eq_true_eq]; omega)]
  iterate 27 rw [if_neg (by omega)]
  rw [char_from_u32, if_neg (by omega)]
  rfl

/-- The expansion stored in a `some` value of an optional expansion is valid
whenever the whole optional value passes `Option.all utf8Valid`; lets concrete
instances be discharged by `decide`. -/
theorem option_all_valid (o : Option (List Nat)) (e : List Nat)
    (ha : o.all utf8Valid = true) (h : o = some e) : utf8Valid e = true := by
  subst h
  simpa using ha

theorem correct_numeric_entity_isSome (n : Nat) :
    (correct_numeric_entity n).isSome = true := by
  by_cases hb : n = 0 ∨ 0x10FFFF < n ∨ (0xD800 ≤ n ∧ n ≤ 0xDFFF)
  · rw [correct_numeric_entity_bad n hb]
    rfl
  · by_cases hs : n < 0xA0
    · interval_cases n <;> decide
    · rw [correct_numeric_entity_catchall n (by omega) (by omega) (by omega)]
      rfl

theorem correct_numeric_entity_valid (n : Nat) (e : List Nat)
    (h : correct_numeric_entity n = some e) : utf8Valid e = true := by
  by_cases hb : n = 0 ∨ 0x10FFFF < n ∨ (0xD800 ≤ n ∧ n ≤ 0xDFFF)
  · rw [correct_numeric_entity_bad n hb] at h
    simp only [Option.some_inj] at h
    subst h
    decide
  · by_cases hs : n < 0xA0
    · interval_cases n <;> exact option_all_valid _ e (by decide) h
    · rw [correct_numeric_entity_catchall n (by omega) (by omega) (by omega)] at h
      simp only [Option.some_inj] at h
      subst h
      exact utf8EncodeChar_valid n (by omega) (by omega)

theorem numeric_result_spec (number : ParseResult) (best rest : List Nat)
    (hbest : utf8Valid best = true) :
    ∃ e, numeric_result number best rest = some (e, rest) ∧ utf8Valid e = true := by
  cases number with
  | ok n =>
    cases hc : correct_numeric_entity n with
    | some exp =>
      exact ⟨exp, by simp only [numeric_result, hc],
        correct_numeric_entity_valid n exp hc⟩
    | none => exact ⟨best, by simp only [numeric_result, hc], hbest⟩
  | posOverflow =>
    exact ⟨utf8EncodeChar REPLACEMENT_CHAR, by simp only [numeric_result], by decide⟩
  | empty => exact ⟨best, by simp only [numeric_result], hbest⟩

theorem numeric_finish_spec (number : ParseResult) (best rest : List Nat)
    (hbest : ∀ c ∈ best, c ≤ 127) :
    ∃ e r2, numeric_finish number best rest = some (e, r2) ∧ r2.length ≤ rest.length ∧
      utf8Valid e = true ∧ (utf8Valid rest = true → utf8Valid r2 = true) := by
  unfold numeric_finish
  by_cases h59 : rest.head? = some 59
  · rw [if_pos h59]
    have hb2 : utf8Valid (best ++ [59]) = true := by
      refine utf8Valid_ascii _ fun c hc => ?_
      rcases List.mem_append.mp hc with h | h
      · exact hbest c h
      · simp only [List.mem_singleton] at h; omega
    obtain ⟨e, he, hev⟩ := numeric_result_spec number (best ++ [59]) rest.tail hb2
    cases rest with
    | nil => exact absurd h59 (by simp)
    | cons r t =>
      have hr : r = 59 := by simpa using h59
      refine ⟨e, t, he, by simp, hev, fun hv => ?_⟩
      subst hr
      rwa [utf8Valid_cons_ascii 59 t (by omega)] at hv
  · rw [if_neg h59]
    obtain ⟨e, he, hev⟩ := numeric_result_spec number best rest (utf8Valid_ascii best hbest)
    exact ⟨e, rest, he, Nat.le_refl _, hev, id⟩

theorem match_numeric_entity_spec (tail : List Nat) :
    ∃ e r, match_numeric_entity (35 :: tail) = some (e, r) ∧ r.length ≤ tail.length ∧
      utf8Valid e = true ∧ (utf8Valid tail = true → utf8Valid r = true) := by
  cases tail with
  | nil =>
    refine ⟨[38, 35], [], ?_, by simp, by decide, fun _ => by decide⟩
    simp only [match_numeric_entity]
    rw [if_neg (by omega)]
  | cons c1 tail2 =>
    by_cases hx : c1 = 120 ∨ c1 = 88
    · have hbest : ∀ c ∈ [38, 35, c1] ++ (consume_hexadecimal tail2).1, c ≤ 127 := by
        intro c hc
        rcases List.mem_append.mp hc with h | h
        · rcases hx with rfl | rfl <;> simp at h <;> omega
        · exact isHexDigit_le c (consumeWhile_fst_all isHexDigit tail2 c h)
      obtain ⟨e, r2, hf, hl, hev, hrv⟩ :=
        numeric_finish_spec (from_str_radix 16 (consume_hexadecimal tail2).1)
          ([38, 35, c1] ++ (consume_hexadecimal tail2).1)
          (consume_hexadecimal tail2).2 hbest
      refine ⟨e, r2, ?_, ?_, hev, fun hv => ?_⟩
      · simp only [match_numeric_entity]
        rw [if_neg (by omega), if_pos hx]
        exact hf
      · calc r2.length ≤ (consume_hexadecimal tail2).2.length := hl
          _ ≤ tail2.length := consumeWhile_snd_length isHexDigit tail2
          _ ≤ (c1 :: tail2).length := by simp
      · have hc1 : c1 ≤ 127 := by rcases hx with rfl | rfl <;> omega
        rw [utf8Valid_cons_ascii c1 tail2 hc1] at hv
        exact hrv (consumeWhile_snd_valid isHexDigit tail2 isHexDigit_le hv)
    · have hbest : ∀ c ∈ [38, 35] ++ (consume_decimal (c1 :: tail2)).1, c ≤ 127 := by
        intro c hc
        rcases List.mem_append.mp hc with h | h
        · simp at h; omega
        · exact isDecDigit_le c (consumeWhile_fst_all isDecDigit (c1 :: tail2) c h)
      obtain ⟨e, r2, hf, hl, hev, hrv⟩ :=
        numeric_finish_spec (from_str_radix 10 (consume_decimal (c1 :: tail2)).1)
          ([38, 35] ++ (consume_decimal (c1 :: tail2)).1)
          (consume_decimal (c1 :: tail2)).2 hbest
      refine ⟨e, r2, ?_, ?_, hev, fun hv => ?_⟩
      · simp only [match_numeric_entity]
        rw [if_neg (by omega), if_neg hx]
        exact hf
      · calc r2.length ≤ (consume_decimal (c1 :: tail2)).2.length := hl
          _ ≤ (c1 :: tail2).length := consumeWhile_snd_length isDecDigit (c1 :: tail2)
      · exact hrv (consumeWhile_snd_valid isDecDigit (c1 :: tail2) isDecDigit_le hv)

theorem match_numeric_entity_hex (c1 : Nat) (hc1 : c1 = 120 ∨ c1 = 88)
    (ds rest : List Nat) (hds : ∀ d ∈ ds, isHexDigit d = true)
    (hrest : ∀ r, rest.head? = some r → isHexDigit r = false) :
    match_numeric_entity (35 :: c1 :: (ds ++ rest)) =
      numeric_finish (from_str_radix 16 ds) ([38, 35, c1] ++ ds) rest := by
  have h2 : consume_hexadecimal (ds ++ rest) = (ds, rest) := by
    simpa [consume_hexadecimal] using consumeWhile_split isHexDigit ds rest hds hrest
  simp only [match_numeric_entity]
  rw [if_neg (by omega), if_pos hc1, h2]

theorem match_numeric_entity_dec (d : Nat) (ds rest : List Nat)
    (hds : ∀ x ∈ d :: ds, isDecDigit x = true)
    (hrest : ∀ r, rest.head? = some r → isDecDigit r = false) :
    match_numeric_entity (35 :: ((d :: ds) ++ rest)) =
      numeric_finish (from_str_radix 10 (d :: ds)) ([38, 35] ++ (d :: ds)) rest := by
  have hd : isDecDigit d = true := hds d (by simp)
  have hd2 : ¬(d = 120 ∨ d = 88) := by
    simp only [isDecDigit, decide_eq_true_eq] at hd
    omega
  have h2 : consume_decimal (d :: (ds ++ rest)) = (d :: ds, rest) := by
    have hs := consumeWhile_split isDecDigit (d :: ds) rest hds hrest
    rw [List.cons_append] at hs
    simpa [consume_decimal] using hs
  rw [List.cons_append]
  simp only [match_numeric_entity]
  rw [if_neg (by omega), if_neg hd2, h2]

/-! ### Lemmas about `match_entity` -/

theorem match_entity_spec (l : List Nat) (ctx : Context) :
    ∃ e r, match_entity l ctx = some (e, r) ∧ r.length ≤ l.length ∧
      utf8Valid e = true ∧ (utf8Valid l = true → utf8Valid r = true) := by
  by_cases h35 : l.head? = some 35
  · cases l with
    | nil => exact absurd h35 (by simp)
    | cons c tail =>
      have hc : c = 35 := by simpa using h35
      subst hc
      obtain ⟨e, r, hm, hl, hev, hrv⟩ := match_numeric_entity_spec tail
      refine ⟨e, r, ?_, by simp; omega, hev, fun hv => ?_⟩
      · unfold match_entity
        rw [if_pos h35]
        exact hm
      · rw [utf8Valid_cons_ascii 35 tail (by omega)] at hv
        exact hrv hv
  · have hall : ∀ c ∈ (consume_alphanumeric l).1, isAlphanumeric c = true :=
      consumeWhile_fst_all isAlphanumeric l
    have hr1len : (consume_alphanumeric l).2.length ≤ l.length :=
      consumeWhile_snd_length isAlphanumeric l
    have hr1val : utf8Valid l = true → utf8Valid (consume_alphanumeric l).2 = true :=
      fun hv => consumeWhile_snd_valid isAlphanumeric l isAlphanumeric_le hv
    have hcand : ∀ x ∈ 38 :: (consume_alphanumeric l).1, x ≤ 127 := by
      intro x hx
      rcases List.mem_cons.mp hx with h | h
      · omega
      · exact isAlphanumeric_le x (hall x h)
    by_cases h59 : (consume_alphanumeric l).2.head? = some 59
    · obtain ⟨t, h2⟩ : ∃ t, (consume_alphanumeric l).2 = 59 :: t := by
        cases hh : (consume_alphanumeric l).2 with
        | nil => rw [hh] at h59; exact absurd h59 (by simp)
        | cons r t =>
          rw [hh] at h59
          have : r = 59 := by simpa using h59
          exact ⟨t, by rw [this]⟩
      have heq : match_entity l ctx =
          some (named_match ctx ((38 :: (consume_alphanumeric l).1) ++ [59]),
            (consume_alphanumeric l).2.tail) := by
        unfold match_entity
        rw [if_neg h35, if_pos h59]
      refine ⟨_, _, heq, ?_, ?_, fun hv => ?_⟩
      · rw [h2]
        simp only [List.tail_cons]
        rw [h2] at hr1len
        simp only [List.length_cons] at hr1len
        omega
      · refine named_match_ascii ctx _ fun x hx => ?_
        rcases List.mem_append.mp hx with h | h
        · exact hcand x h
        · simp only [List.mem_singleton] at h; omega
      · have := hr1val hv
        rw [h2] at this
        rw [h2]
        simp only [List.tail_cons]
        rwa [utf8Valid_cons_ascii 59 t (by omega)] at this
    · by_cases h61 : (consume_alphanumeric l).2.head? = some 61 ∧ ctx = Context.Attribute
      · have heq : match_entity l ctx =
            some (38 :: (consume_alphanumeric l).1, (consume_alphanumeric l).2) := by
          unfold match_entity
          rw [if_neg h35, if_neg h59, if_pos h61]
        exact ⟨_, _, heq, hr1len, utf8Valid_ascii _ hcand, hr1val⟩
      · have heq : match_entity l ctx =
            some (named_match ctx (38 :: (consume_alphanumeric l).1),
              (consume_alphanumeric l).2) := by
          unfold match_entity
          rw [if_neg h35, if_neg h59, if_neg h61]
        exact ⟨_, _, heq, hr1len, named_match_ascii ctx _ hcand, hr1val⟩

/-- Scanning glue: after `&`, a maximal alphanumeric run whose terminator is
not `;`, not `#` at the very start, and not `=` (unless in `General` context),
is resolved by `named_match` on the candidate `&run`, consuming nothing else. -/
theorem match_entity_named (run rest : List Nat) (context : Context)
    (hrun : ∀ c ∈ run, isAlphanumeric c = true)
    (hrest : ∀ r, rest.head? = some r → isAlphanumeric r = false ∧ r ≠ 35 ∧ r ≠ 59 ∧
      (r = 61 → context = Context.General)) :
    match_entity (run ++ rest) context = some (named_match context (38 :: run), rest) := by
  have h2 : consume_alphanumeric (run ++ rest) = (run, rest) := by
    simpa [consume_alphanumeric] using
      consumeWhile_split isAlphanumeric run rest hrun (fun r hr => (hrest r hr).1)
  have h35 : ¬((run ++ rest).head? = some 35) := by
    cases run with
    | nil =>
      simp only [List.nil_append]
      intro hc
      exact (hrest 35 hc).2.1 rfl
    | cons c run2 =>
      simp only [List.cons_append, List.head?_cons]
      intro hc
      have hc2 : c = 35 := by simpa using hc
      have hc3 := hrun c (by simp)
      rw [hc2] at hc3
      exact absurd hc3 (by decide)
  unfold match_entity
  rw [if_neg h35, h2]
  dsimp only
  cases hr : rest.head? with
  | none =>
    rw [if_neg (by simp), if_neg (by simp)]
  | some r =>
    obtain ⟨ha, h35r, h59r, h61r⟩ := hrest r hr
    rw [if_neg (by simp only [Option.some_inj]; omega), if_neg ?_]
    rintro ⟨hh1, hh2⟩
    simp only [Option.some_inj] at hh1
    rw [h61r hh1] at hh2
    exact absurd hh2 (by simp)

/-- A full-candidate exact table hit expands in both contexts even with no
trailing terminator at all (end of input immediately after the name). -/
theorem match_entity_exact_eof (run e : List Nat) (context : Context)
    (hrun : ∀ c ∈ run, isAlphanumeric c = true)
    (h : entities_get (38 :: run) = some e) :
    match_entity run context = some (e, []) := by
  have h0 : match_entity (run ++ []) context =
      some (named_match context (38 :: run), []) :=
    match_entity_named run [] context hrun (by simp)
  rw [List.append_nil] at h0
  rw [h0, named_match_exact context (38 :: run) e h]

/-! ### Lemmas about the scanner loop -/

theorem unescape_loop_valid (fuel : Nat) :
    ∀ l s ctx, l.length ≤ fuel → utf8Run s l = true →
      ∃ out, unescape_loop ctx fuel l = some out ∧ utf8Run s out = true := by
  induction fuel with
  | zero =>
    intro l s ctx hlen hv
    have h0 : l = [] := List.length_eq_zero.mp (Nat.le_zero.mp hlen)
    subst h0
    exact ⟨[], by simp [unescape_loop], hv⟩
  | succ n ih =>
    intro l s ctx hlen hv
    cases l with
    | nil => exact ⟨[], by simp [unescape_loop], hv⟩
    | cons c rest =>
      by_cases hc : c = 38
      · subst hc
        have hs : s = Utf8State.start := by
          cases hn : utf8Next s 38 with
          | none => rw [utf8Run_cons_none s 38 rest hn] at hv; exact absurd hv (by simp)
          | some s2 => exact (utf8Next_ascii_start s s2 38 (by omega) hn).1
        subst hs
        have hnext : utf8Next Utf8State.start 38 = some Utf8State.start :=
          utf8Next_ascii 38 (by omega)
        rw [utf8Run_cons_some _ _ 38 rest hnext] at hv
        obtain ⟨e, r, hme, hrl, hev, hrv⟩ := match_entity_spec rest ctx
        obtain ⟨out, hloop, hov⟩ :=
          ih r Utf8State.start ctx (by simp at hlen; omega) (hrv hv)
        refine ⟨e ++ out, ?_, utf8Run_append e Utf8State.start hev out hov⟩
        have hstep : unescape_loop ctx (n + 1) (38 :: rest) =
            (unescape_loop ctx n r).map (fun o => e ++ o) := by
          simp only [unescape_loop, if_true]
          rw [hme]
        rw [hstep, hloop]
        rfl
      · cases hn : utf8Next s c with
        | none => rw [utf8Run_cons_none s c rest hn] at hv; exact absurd hv (by simp)
        | some s2 =>
          rw [utf8Run_cons_some s s2 c rest hn] at hv
          obtain ⟨out, hloop, hov⟩ := ih rest s2 ctx (by simp at hlen; omega) hv
          refine ⟨c :: out, ?_, ?_⟩
          · have hstep : unescape_loop ctx (n + 1) (c :: rest) =
                (unescape_loop ctx n rest).map (fun o => c :: o) := by
              simp only [unescape_loop]
              rw [if_neg hc]
            rw [hstep, hloop]
            rfl
          · rw [utf8Run_cons_some s s2 c out hn]
            exact hov

theorem unescape_loop_no_amp (fuel : Nat) :
    ∀ l ctx, l.length ≤ fuel → (∀ b ∈ l, b ≠ 38) →
      unescape_loop ctx fuel l = some l := by
  induction fuel with
  | zero =>
    intro l ctx hlen _
    have h0 : l = [] := List.length_eq_zero.mp (Nat.le_zero.mp hlen)
    subst h0
    simp [unescape_loop]
  | succ n ih =>
    intro l ctx hlen hall
    cases l with
    | nil => simp [unescape_loop]
    | cons c rest =>
      have hc : c ≠ 38 := hall c (by simp)
      have hstep : unescape_loop ctx (n + 1) (c :: rest) =
          (unescape_loop ctx n rest).map (fun o => c :: o) := by
        simp only [unescape_loop]
        rw [if_neg hc]
      rw [hstep, ih rest ctx (by simp at hlen; omega)
        (fun b hb => hall b (List.mem_cons_of_mem c hb))]
      rfl

theorem unescape_in_valid (l : List Nat) (ctx : Context) (hv : utf8Valid l = true) :
    ∃ out, unescape_in l ctx = some out ∧ utf8Valid out = true := by
  obtain ⟨out, hloop, hov⟩ :=
    unescape_loop_valid l.length l Utf8State.start ctx (Nat.le_refl _) hv
  refine ⟨out, ?_, hov⟩
  unfold unescape_in
  rw [hloop]
  dsimp only
  rw [if_pos (show utf8Valid out = true from hov)]

theorem unescape_in_no_amp (l : List Nat) (ctx : Context) (hv : utf8Valid l = true)
    (hall : ∀ b ∈ l, b ≠ 38) : unescape_in l ctx = some l := by
  unfold unescape_in
  rw [unescape_loop_no_amp l.length l ctx (Nat.le_refl _) hall]
  simp only [hv, if_true]

/-- Scanning glue for a consumed trailing semicolon: after `&`, a maximal
alphanumeric run followed by `;` is resolved by `named_match` on the candidate
`&run;`, with the semicolon consumed. -/
theorem match_entity_semi (run rest2 : List Nat) (context : Context)
    (hrun : ∀ c ∈ run, isAlphanumeric c = true) :
    match_entity (run ++ 59 :: rest2) context =
      some (named_match context ((38 :: run) ++ [59]), rest2) := by
  have h2 : consume_alphanumeric (run ++ 59 :: rest2) = (run, 59 :: rest2) := by
    simpa [consume_alphanumeric] using
      consumeWhile_split isAlphanumeric run (59 :: rest2) hrun
        (by intro r hr; simp only [List.head?_cons, Option.some_inj] at hr; subst hr; decide)
  have h35 : ¬((run ++ 59 :: rest2).head? = some 35) := by
    cases run with
    | nil => simp
    | cons c run2 =>
      simp only [List.cons_append, List.head?_cons]
      intro hc
      have hc2 : c = 35 := by simpa using hc
      have hc3 := hrun c (by simp)
      rw [hc2] at hc3
      exact absurd hc3 (by decide)
  unfold match_entity
  rw [if_neg h35, h2]
  dsimp only
  rw [if_pos (show (59 :: rest2).head? = some 59 from rfl)]
  rfl

/-- When the digit run of a numeric reference is nonempty and its value is 0,
beyond Unicode, or a surrogate (including any value overflowing `u32`), the
resolver produces exactly the replacement character, consuming a trailing
semicolon when present and discarding the literal fallback. -/
theorem numeric_finish_bad (radix : Nat) (ds best rest : List Nat) (hne : ds ≠ [])
    (hbad : digitsVal radix ds = 0 ∨ 0x10FFFF < digitsVal radix ds ∨
      (0xD800 ≤ digitsVal radix ds ∧ digitsVal radix ds ≤ 0xDFFF)) :
    numeric_finish (from_str_radix radix ds) best rest =
      some (utf8EncodeChar 0xFFFD, if rest.head? = some 59 then rest.tail else rest) := by
  have hres : ∀ (b r : List Nat),
      numeric_result (from_str_radix radix ds) b r = some (utf8EncodeChar 0xFFFD, r) := by
    intro b r
    unfold from_str_radix
    rw [if_neg hne]
    by_cases hov : 4294967295 < digitsVal radix ds
    · rw [if_pos hov]
      simp only [numeric_result]
      rfl
    · rw [if_neg hov]
      simp only [numeric_result]
      rw [correct_numeric_entity_bad _ hbad]
      rfl
  unfold numeric_finish
  by_cases h59 : rest.head? = some 59
  · rw [if_pos h59, hres, if_pos h59]
  · rw [if_neg h59, hres, if_neg h59]
/-! ### Claim theorems -/

/-- C1 counterexample: on the byte input `[0xFF]`, which is not valid UTF-8 and
contains no entity, `unescape` and `unescape_attribute` fail (the
`String::from_utf8(buffer).unwrap()` panic, modelled as `none`), refuting the
claim that decoding is total over all byte inputs including invalid UTF-8. -/
theorem c1_counterexample : unescape [255] = none ∧ unescape_attribute [255] = none := by
  decide

/-- C1 (amended): for every input that is valid UTF-8 and each context,
`unescape_in` returns a defined result that is valid text; the wrappers
`unescape` and `unescape_attribute` are `unescape_in` at the two contexts;
the empty input yields the empty output. -/
theorem c1_amended_total_on_valid (l : List Nat) (ctx : Context)
    (hv : utf8Valid l = true) :
    (∃ out, unescape_in l ctx = some out ∧ utf8Valid out = true) ∧
    unescape l = unescape_in l Context.General ∧
    unescape_attribute l = unescape_in l Context.Attribute ∧
    unescape_in [] ctx = some [] :=
  ⟨unescape_in_valid l ctx hv, rfl, rfl, rfl⟩

/-- Witness for C1 (amended) at the concrete valid-UTF-8 input `"×"`. -/
theorem c1_amended_witness :
    ∃ out, unescape_in [195, 151] Context.General = some out ∧ utf8Valid out = true :=
  (c1_amended_total_on_valid [195, 151] Context.General (by decide)).1

/-- C2 counterexample: `0x81` lies in `0x80`–`0x9F` and outside the claim's
exclusion set `{0x8D, 0x8F, 0x90, 0x9D}`, yet the numeric correction does not
remap it to a distinct code point — it passes `0x81` through unchanged (the
true exclusion set also contains `0x81`; 32 − 4 = 28 would contradict the
claim's own count of 27 entries). -/
theorem c2_counterexample :
    (128 ≤ 129 ∧ 129 ≤ 159 ∧ (129 : Nat) ∉ [141, 143, 144, 157]) ∧
    correct_numeric_entity 129 = some (utf8EncodeChar 129) := by
  decide

/-- C2 (amended): the numeric correction remaps exactly the 27 code points
`0x80`–`0x9F` minus `{0x81, 0x8D, 0x8F, 0x90, 0x9D}` to their fixed, pairwise
distinct Unicode code points (0x80 to U+20AC, 0x95 to U+2022, 0x99 to U+2122,
0x9F to U+0178, etc.), and decoding `"&#x95;"`, `"&#149;"` and `"&#x2022;"`
each yields the bullet character in either context. -/
theorem c2_legacy_remap :
    (let pairs : List (Nat × Nat) :=
      [(0x80, 0x20AC), (0x82, 0x201A), (0x83, 0x0192), (0x84, 0x201E),
       (0x85, 0x2026), (0x86, 0x2020), (0x87, 0x2021), (0x88, 0x02C6),
       (0x89, 0x2030), (0x8A, 0x0160), (0x8B, 0x2039), (0x8C, 0x0152),
       (0x8E, 0x017D), (0x91, 0x2018), (0x92, 0x2019), (0x93, 0x201C),
       (0x94, 0x201D), (0x95, 0x2022), (0x96, 0x2013), (0x97, 0x2014),
       (0x98, 0x02DC), (0x99, 0x2122), (0x9A, 0x0161), (0x9B, 0x203A),
       (0x9C, 0x0153), (0x9E, 0x017E), (0x9F, 0x0178)]
     pairs.length = 27 ∧
     (∀ p ∈ pairs, correct_numeric_entity p.1 = some (utf8EncodeChar p.2)) ∧
     (pairs.map Prod.snd).Nodup ∧
     (∀ v ∈ List.range 160, 128 ≤ v → v ∉ [129, 141, 143, 144, 157] →
       v ∈ pairs.map Prod.fst)) ∧
    (∀ ctx ∈ [Context.General, Context.Attribute],
      unescape_in [38, 35, 120, 57, 53, 59] ctx = some [226, 128, 162] ∧
      unescape_in [38, 35, 49, 52, 57, 59] ctx = some [226, 128, 162] ∧
      unescape_in [38, 35, 120, 50, 48, 50, 50, 59] ctx = some [226, 128, 162]) := by
  decide

/-- C3: a numeric reference (hexadecimal or decimal, in either context) whose
nonempty digit run has value 0, above 0x10FFFF (including any value that
overflows `u32`), or in the surrogate band expands to exactly the replacement
character U+FFFD — with a trailing semicolon consumed when present — and the
literal fallback text is discarded. -/
theorem c3_invalid_numeric_replacement (ctx : Context) (ds rest : List Nat) :
    (∀ c1, (c1 = 120 ∨ c1 = 88) → ds ≠ [] → (∀ d ∈ ds, isHexDigit d = true) →
      (∀ r, rest.head? = some r → isHexDigit r = false) →
      (digitsVal 16 ds = 0 ∨ 0x10FFFF < digitsVal 16 ds ∨
        (0xD800 ≤ digitsVal 16 ds ∧ digitsVal 16 ds ≤ 0xDFFF)) →
      match_entity (35 :: c1 :: (ds ++ rest)) ctx =
        some (utf8EncodeChar 0xFFFD, if rest.head? = some 59 then rest.tail else rest)) ∧
    (ds ≠ [] → (∀ d ∈ ds, isDecDigit d = true) →
      (∀ r, rest.head? = some r → isDecDigit r = false) →
      (digitsVal 10 ds = 0 ∨ 0x10FFFF < digitsVal 10 ds ∨
        (0xD800 ≤ digitsVal 10 ds ∧ digitsVal 10 ds ≤ 0xDFFF)) →
      match_entity (35 :: (ds ++ rest)) ctx =
        some (utf8EncodeChar 0xFFFD, if rest.head? = some 59 then rest.tail else rest)) := by
  constructor
  · intro c1 hc1 hne hds hrest hbad
    have hme : match_entity (35 :: c1 :: (ds ++ rest)) ctx =
        match_numeric_entity (35 :: c1 :: (ds ++ rest)) := by
      unfold match_entity
      rw [if_pos (show (35 :: c1 :: (ds ++ rest)).head? = some 35 from rfl)]
    rw [hme, match_numeric_entity_hex c1 hc1 ds rest hds
      (fun r hr => by
        have := hrest r hr
        simp only [isHexDigit, Bool.or_eq_true] at this ⊢
        exact this),
      numeric_finish_bad 16 ds _ rest hne hbad]
  · intro hne hds hrest hbad
    obtain ⟨d, ds2, rfl⟩ : ∃ d ds2, ds = d :: ds2 := by
      cases ds with
      | nil => exact absurd rfl hne
      | cons d ds2 => exact ⟨d, ds2, rfl⟩
    have hme : match_entity (35 :: ((d :: ds2) ++ rest)) ctx =
        match_numeric_entity (35 :: ((d :: ds2) ++ rest)) := by
      unfold match_entity
      rw [if_pos (show (35 :: ((d :: ds2) ++ rest)).head? = some 35 from rfl)]
    rw [hme, match_numeric_entity_dec d ds2 rest hds hrest,
      numeric_finish_bad 10 (d :: ds2) _ rest (by simp) hbad]

/-- Witness for C3: `"&#0;"` (digit run `"0"`, value 0, trailing semicolon)
expands to the replacement character in `General` context. -/
theorem c3_witness :
    match_entity [35, 48, 59] Context.General = some (utf8EncodeChar 0xFFFD, []) := by
  have h := (c3_invalid_numeric_replacement Context.General [48] [59]).2
    (by decide) (by decide) (by decide) (by decide)
  simpa using h

/-- C4: in `General` context a candidate is `&` plus a maximal alphanumeric
run plus an optionally consumed `;`; the matcher probes prefixes of the
candidate from the longest (bounded by the table's maximum key length) down to
the table minimum, and on the first table hit emits the entry's expansion
followed by the unconsumed candidate suffix verbatim; `unescape "&timesX"`
yields `"×X"`. -/
theorem c4_general_longest_prefix :
    (∀ run rest, (∀ c ∈ run, isAlphanumeric c = true) →
      (∀ r, rest.head? = some r → isAlphanumeric r = false ∧ r ≠ 35 ∧ r ≠ 59) →
      match_entity (run ++ rest) Context.General =
        some (named_match Context.General (38 :: run), rest)) ∧
    (∀ run rest2, (∀ c ∈ run, isAlphanumeric c = true) →
      match_entity (run ++ 59 :: rest2) Context.General =
        some (named_match Context.General ((38 :: run) ++ [59]), rest2)) ∧
    (∀ candidate e k, ENTITY_MIN_LENGTH ≤ k →
      k ≤ min candidate.length ENTITY_MAX_LENGTH →
      entities_get (candidate.take k) = some e →
      (∀ j, k < j → j ≤ min candidate.length ENTITY_MAX_LENGTH →
        entities_get (candidate.take j) = none) →
      named_match Context.General candidate = e ++ candidate.drop k) ∧
    unescape [38, 116, 105, 109, 101, 115, 88] = some [195, 151, 88] := by
  refine ⟨?_, ?_, ?_, by decide⟩
  · intro run rest hrun hrest
    exact match_entity_named run rest Context.General hrun
      (fun r hr => ⟨(hrest r hr).1, (hrest r hr).2.1, (hrest r hr).2.2, fun _ => rfl⟩)
  · intro run rest2 hrun
    exact match_entity_semi run rest2 Context.General hrun
  · intro candidate e k h1 h2 h3 h4
    exact named_match_general_hit candidate e k h1 h2 h3 h4

/-- Witness for C4 at the concrete candidate run `"timesX"` with empty rest. -/
theorem c4_witness :
    match_entity [116, 105, 109, 101, 115, 88] Context.General =
      some (named_match Context.General [38, 116, 105, 109, 101, 115, 88], []) := by
  have h := c4_general_longest_prefix.1 [116, 105, 109, 101, 115, 88] []
    (by decide) (by simp)
  simpa using h

/-- C5: in `Attribute` context a named candidate expands only on an exact
table hit; otherwise the candidate (with its `&` and any trailing `;`) is
returned verbatim; `unescape_attribute "&timesX"` is unchanged while
`unescape "&timesX"` is `"×X"`. -/
theorem c5_attribute_exact_match :
    (∀ candidate e, entities_get candidate = some e →
      named_match Context.Attribute candidate = e) ∧
    (∀ candidate, entities_get candidate = none →
      named_match Context.Attribute candidate = candidate) ∧
    (∀ run rest, (∀ c ∈ run, isAlphanumeric c = true) →
      (∀ r, rest.head? = some r →
        isAlphanumeric r = false ∧ r ≠ 35 ∧ r ≠ 59 ∧ r ≠ 61) →
      match_entity (run ++ rest) Context.Attribute =
        some (named_match Context.Attribute (38 :: run), rest)) ∧
    unescape_attribute [38, 116, 105, 109, 101, 115, 88] =
      some [38, 116, 105, 109, 101, 115, 88] ∧
    unescape [38, 116, 105, 109, 101, 115, 88] = some [195, 151, 88] := by
  refine ⟨named_match_attribute_hit, named_match_attribute_miss, ?_, by decide, by decide⟩
  intro run rest hrun hrest
  exact match_entity_named run rest Context.Attribute hrun
    (fun r hr => ⟨(hrest r hr).1, (hrest r hr).2.1, (hrest r hr).2.2.1,
      fun h61 => absurd h61 (hrest r hr).2.2.2⟩)

/-- Witness for C5 at the exact key `"&times;"` and its expansion `"×"`. -/
theorem c5_witness :
    named_match Context.Attribute [38, 116, 105, 109, 101, 115, 59] = [195, 151] :=
  c5_attribute_exact_match.1 [38, 116, 105, 109, 101, 115, 59] [195, 151] (by decide)

/-- C6: in `Attribute` context only, an `=` immediately after the maximal
alphanumeric run stops named matching at once: the candidate is returned as
literal text and the `=` is left unconsumed; `unescape_attribute "&times="`
is unchanged while `unescape "&times="` is `"×="`. -/
theorem c6_attribute_equals_early_exit :
    (∀ run rest, (∀ c ∈ run, isAlphanumeric c = true) →
      match_entity (run ++ 61 :: rest) Context.Attribute =
        some (38 :: run, 61 :: rest)) ∧
    unescape_attribute [38, 116, 105, 109, 101, 115, 61] =
      some [38, 116, 105, 109, 101, 115, 61] ∧
    unescape [38, 116, 105, 109, 101, 115, 61] = some [195, 151, 61] := by
  refine ⟨?_, by decide, by decide⟩
  intro run rest hrun
  have h2 : consume_alphanumeric (run ++ 61 :: rest) = (run, 61 :: rest) := by
    simpa [consume_alphanumeric] using
      consumeWhile_split isAlphanumeric run (61 :: rest) hrun
        (by intro r hr; simp only [List.head?_cons, Option.some_inj] at hr; subst hr; decide)
  have h35 : ¬((run ++ 61 :: rest).head? = some 35) := by
    cases run with
    | nil => simp
    | cons c run2 =>
      simp only [List.cons_append, List.head?_cons]
      intro hc
      have hc2 : c = 35 := by simpa using hc
      have hc3 := hrun c (by simp)
      rw [hc2] at hc3
      exact absurd hc3 (by decide)
  unfold match_entity
  rw [if_neg h35, h2]
  dsimp only
  rw [if_neg (by simp), if_pos ⟨rfl, rfl⟩]

/-- Witness for C6 at the concrete run `"times"` followed by `=`. -/
theorem c6_witness :
    match_entity [116, 105, 109, 101, 115, 61] Context.Attribute =
      some ([38, 116, 105, 109, 101, 115], [61]) := by
  have h := c6_attribute_equals_early_exit.1 [116, 105, 109, 101, 115] []
    (by decide)
  simpa using h

/-- C7: a missing trailing semicolon is tolerated: a named reference whose
candidate exactly matches a table key expands in both contexts, whether the
name ends the input or is followed by a non-terminator byte (which stays
unconsumed); `"&times"` decodes to `"×"` and `" &amp; "` to `" & "` in both
contexts. -/
theorem c7_missing_semicolon_tolerance :
    (∀ run e ctx, (∀ c ∈ run, isAlphanumeric c = true) →
      entities_get (38 :: run) = some e →
      match_entity run ctx = some (e, [])) ∧
    (∀ run e ctx rest, (∀ c ∈ run, isAlphanumeric c = true) →
      (∀ r, rest.head? = some r →
        isAlphanumeric r = false ∧ r ≠ 35 ∧ r ≠ 59 ∧ r ≠ 61) →
      entities_get (38 :: run) = some e →
      match_entity (run ++ rest) ctx = some (e, rest)) ∧
    (∀ ctx ∈ [Context.General, Context.Attribute],
      unescape_in [38, 116, 105, 109, 101, 115] ctx = some [195, 151] ∧
      unescape_in [32, 38, 97, 109, 112, 59, 32] ctx = some [32, 38, 32]) := by
  refine ⟨?_, ?_, by decide⟩
  · intro run e ctx hrun h
    exact match_entity_exact_eof run e ctx hrun h
  · intro run e ctx rest hrun hrest h
    have hg := match_entity_named run rest ctx hrun
      (fun r hr => ⟨(hrest r hr).1, (hrest r hr).2.1, (hrest r hr).2.2.1,
        fun h61 => absurd h61 (hrest r hr).2.2.2⟩)
    rw [hg, named_match_exact ctx (38 :: run) e h]

/-- Witness for C7: `"&times!"` expands to `"×"` leaving `"!"` unconsumed in
`General` context. -/
theorem c7_witness :
    match_entity [116, 105, 109, 101, 115, 33] Context.General =
      some ([195, 151], [33]) := by
  have h := c7_missing_semicolon_tolerance.2.1 [116, 105, 109, 101, 115] [195, 151]
    Context.General [33] (by decide) (by decide) (by decide)
  simpa using h

/-- C8 counterexample: the entity-free input `[0xC0]` is not returned
unchanged — decoding fails on it (invalid UTF-8 buffer), refuting identity on
arbitrary `&`-free byte inputs. -/
theorem c8_counterexample :
    unescape_in [192] Context.General = none ∧ (38 : Nat) ∉ [(192 : Nat)] := by
  decide

/-- C8 (amended): for every valid-UTF-8 input containing no `&` byte,
decoding returns the input unchanged in both contexts. -/
theorem c8_amended_identity_no_amp (l : List Nat) (ctx : Context)
    (hv : utf8Valid l = true) (hall : ∀ b ∈ l, b ≠ 38) :
    unescape_in l ctx = some l :=
  unescape_in_no_amp l ctx hv hall

/-- Witness for C8 (amended) at the concrete input `"none"`. -/
theorem c8_amended_witness :
    unescape_in [110, 111, 110, 101] Context.Attribute = some [110, 111, 110, 101] :=
  c8_amended_identity_no_amp [110, 111, 110, 101] Context.Attribute (by decide) (by decide)

/-- C9: for every input and either context, `match_entity` returns a value
(never hits a modelled panic branch), and so does `match_numeric_entity` under
its caller-guaranteed precondition that the iterator is positioned at `#`; the
`PEEK_MATCH_ERROR` branches are unreachable on untrusted input. -/
theorem c9_no_peek_mismatch_panic (l : List Nat) (ctx : Context) :
    (match_entity l ctx).isSome = true ∧
    (match_numeric_entity (35 :: l)).isSome = true := by
  obtain ⟨e, r, h, -, -, -⟩ := match_entity_spec l ctx
  obtain ⟨e2, r2, h2, -, -, -⟩ := match_numeric_entity_spec l
  exact ⟨by rw [h]; rfl, by rw [h2]; rfl⟩

/-- C10: `correct_numeric_entity` is `some` on every input (its final `None`
branch is unreachable), so a successfully parsed numeric value never falls
back to emitting the literal `&#…` bytes: the `ok` case of the resolver
returns the corrected expansion regardless of the accumulated fallback. -/
theorem c10_correct_numeric_entity_total :
    (∀ n : Nat, (correct_numeric_entity n).isSome = true) ∧
    (∀ (n : Nat) (best rest : List Nat),
      numeric_result (ParseResult.ok n) best rest =
        some ((correct_numeric_entity n).getD [], rest)) := by
  refine ⟨correct_numeric_entity_isSome, fun n best rest => ?_⟩
  cases hc : correct_numeric_entity n with
  | some e => simp only [numeric_result, hc, Option.getD_some]
  | none =>
    have h := correct_numeric_entity_isSome n
    rw [hc] at h
    exact absurd h (by simp)
